import Mathlib

/-!
Verification of the decision and monitoring engine of the solana-trading-bot
repository, as a shallow embedding in Lean 4.

The embedding follows the TypeScript source:
* `PoolFilters.execute` (src/filters/pool-filters.ts) — the debounced
  consecutive-match filter pipeline;
* `PositionManager` (src/unnamed/part_000, position-manager) — the position
  store: `addPosition`, `updatePosition`, `closePosition`,
  `cleanupOldPositions`;
* `SellManager` (src/unnamed/part_000, sell-manager) — sell-condition
  monitoring: `checkSellCondition`, `executeSell`, `removeSellCondition`;
* `OnChainFilter.checkPoolSize` (src/unnamed/part_002) — the pool-size check,
  embedded with JavaScript string comparison semantics, which is what the
  source actually performs;
* the single-flight mutex discipline of `Bot.buy` (src/unnamed/part_003),
  modelled as a small transition system over cooperative interleavings.

Numbers that the source manipulates as JavaScript floats (prices, amounts,
percentages) are modelled as rationals; timestamps and balances as naturals.
Effectful inputs (current time, fetched prices, fetched balances) are passed
as explicit parameters; fallible external calls are `Option`/`Except` values.
-/

/-! ## Definitions -/

/-! ### FilterPipeline (src/filters/pool-filters.ts, PoolFilters.execute)

The source loops up to `maxAttempts = Math.ceil(FILTER_REPEAT_TIMEOUT /
FILTER_REPEAT_INTERVAL)` rounds.  Each round runs every stage sequentially and
is all-pass or failed; we embed a round as a `Bool` and the attempt loop as a
recursion over the list of round outcomes.  `consecutiveMatches` is the
accumulator: an all-pass round increments it and the function returns `true`
as soon as it reaches `repeatCount`; a failed round resets it to `0`. -/

/-- One round of the repeat loop of `PoolFilters.execute`: `true` rounds
increment the consecutive-match counter (returning as soon as it reaches
`rc`), `false` rounds reset it to zero, and running out of attempts yields
`false` (lines 63–100 of pool-filters.ts). -/
def executeLoop (rc : Nat) : List Bool → Nat → Bool
  | [], _ => false
  | true :: rest, c => if rc ≤ c + 1 then true else executeLoop rc rest (c + 1)
  | false :: rest, _ => executeLoop rc rest 0

/-- `Math.ceil(timeout / interval)` on naturals (for a positive interval,
`(t + i - 1) / i` is exactly the ceiling of `t / i`). -/
def maxAttempts (repeatTimeout repeatInterval : Nat) : Nat :=
  (repeatTimeout + repeatInterval - 1) / repeatInterval

/-- `PoolFilters.execute` on a stream of round outcomes: run the repeat loop
over at most `maxAttempts` rounds with the counter starting at zero. -/
def PoolFilters.execute (rc repeatTimeout repeatInterval : Nat)
    (rounds : List Bool) : Bool :=
  executeLoop rc (rounds.take (maxAttempts repeatTimeout repeatInterval)) 0

/-! ### PositionStore (src/unnamed/part_000, PositionManager)

Positions are held in a JavaScript `Map<string, Position>` keyed by mint.
We embed the map as an association list in insertion order: `Map.set`
replaces the value in place for an existing key and appends a new key;
`Map.delete` removes the key; iteration (`Array.from(...)`) is insertion
order.  `Date.now()` is passed in explicitly as `now`. -/

/-- `status` field of a Position: 'active' | 'sold' | 'failed'. -/
inductive PStatus where
  | active
  | sold
  | failed
deriving DecidableEq, Repr

/-- `sellReason` values: 'take_profit' | 'stop_loss' | 'ttl' | 'manual'. -/
inductive TriggerReason where
  | takeProfit
  | stopLoss
  | ttl
  | manual
deriving DecidableEq, Repr

/-- The `Position` record of position-manager (floats as rationals,
timestamps as naturals). -/
structure Position where
  mint : String
  symbol : String
  buyPrice : Rat
  buyAmount : Rat
  buyTimestamp : Nat
  buySignature : String
  currentPrice : Option Rat := none
  currentValue : Option Rat := none
  pnl : Option Rat := none
  pnlPercent : Option Rat := none
  status : PStatus
  sellReason : Option TriggerReason := none
  sellSignature : Option String := none
  sellTimestamp : Option Nat := none
deriving DecidableEq, Repr

/-- JavaScript `Map.set`: replace the value of an existing key in place,
append a fresh key at the end. -/
def mapSet : List (String × Position) → String → Position → List (String × Position)
  | [], k, v => [(k, v)]
  | e :: rest, k, v => if e.1 = k then (k, v) :: rest else e :: mapSet rest k v

/-- `PositionManager.getPosition` / `Map.get`. -/
def PositionManager.getPosition : List (String × Position) → String → Option Position
  | [], _ => none
  | e :: rest, k => if e.1 = k then some e.2 else PositionManager.getPosition rest k

/-- The capacity ceiling `maxPositions = 50` of `PositionManager`. -/
def PositionManager.maxPositions : Nat := 50

/-- Stable insertion by ascending `buyTimestamp` (the element being inserted
goes before any element with an equal or larger timestamp that followed it),
matching the stable `Array.prototype.sort` with comparator
`a[1].buyTimestamp - b[1].buyTimestamp`. -/
def insertByTs (x : String × Position) :
    List (String × Position) → List (String × Position)
  | [] => [x]
  | y :: ys =>
    if y.2.buyTimestamp < x.2.buyTimestamp then y :: insertByTs x ys
    else x :: y :: ys

/-- Stable sort of the map entries by ascending `buyTimestamp`. -/
def sortByTimestamp : List (String × Position) → List (String × Position)
  | [] => []
  | x :: xs => insertByTs x (sortByTimestamp xs)

/-- `PositionManager.cleanupOldPositions` (part_000 lines 405–421): sort all
entries by acquisition time ascending, take the first 10 entries whose status
is not 'active', and delete those mints from the map. -/
def PositionManager.cleanupOldPositions
    (m : List (String × Position)) : List (String × Position) :=
  let sorted := sortByTimestamp m
  let toRemove := (sorted.filter (fun e => decide (e.2.status ≠ PStatus.active))).take 10
  m.filter (fun e => ! toRemove.any (fun r => decide (r.1 = e.1)))

/-- The fresh `Position` record built by `addPosition`. -/
def newPosition (mint symbol : String) (buyPrice buyAmount : Rat)
    (buySignature : String) (now : Nat) : Position :=
  { mint := mint, symbol := symbol, buyPrice := buyPrice,
    buyAmount := buyAmount, buyTimestamp := now,
    buySignature := buySignature, status := PStatus.active }

/-- `PositionManager.addPosition` (part_000 lines 281–315): unconditionally
`Map.set` the new record, then run `cleanupOldPositions` if the map size
exceeds `maxPositions`. -/
def PositionManager.addPosition (m : List (String × Position))
    (mint symbol : String) (buyPrice buyAmount : Rat)
    (buySignature : String) (now : Nat) : List (String × Position) :=
  let m' := mapSet m mint (newPosition mint symbol buyPrice buyAmount buySignature now)
  if PositionManager.maxPositions < m'.length then
    PositionManager.cleanupOldPositions m'
  else m'

/-- `PositionManager.updatePosition` (part_000 lines 317–333): no-op when the
mint is absent; otherwise store the fresh price/value and recompute
`pnl = currentValue - buyPrice*buyAmount` and
`pnlPercent = pnl / (buyPrice*buyAmount) * 100`. -/
def PositionManager.updatePosition (m : List (String × Position))
    (mint : String) (currentPrice currentValue : Rat) : List (String × Position) :=
  m.map (fun e =>
    if e.1 = mint then
      (e.1,
        { e.2 with
          currentPrice := some currentPrice,
          currentValue := some currentValue,
          pnl := some (currentValue - e.2.buyPrice * e.2.buyAmount),
          pnlPercent := some ((currentValue - e.2.buyPrice * e.2.buyAmount) /
            (e.2.buyPrice * e.2.buyAmount) * 100) })
    else e)

/-- `PositionManager.closePosition` (part_000 lines 335–360): no-op when the
mint is absent; otherwise set status to 'sold' and stamp the exit fields —
note the source guards only on absence, not on the current status. -/
def PositionManager.closePosition (m : List (String × Position))
    (mint : String) (reason : TriggerReason) (sig : Option String)
    (now : Nat) : List (String × Position) :=
  m.map (fun e =>
    if e.1 = mint then
      (e.1,
        { e.2 with
          status := PStatus.sold,
          sellReason := some reason,
          sellSignature := sig,
          sellTimestamp := some now })
    else e)

/-- Count of the entries of `m` that are non-active ("closed" in the spec's
sense, i.e. sold or failed) and strictly older than `e` by acquisition
timestamp. -/
def olderClosedCount (m : List (String × Position)) (e : String × Position) : Nat :=
  (m.filter (fun x => decide (x.2.status ≠ PStatus.active) &&
    decide (x.2.buyTimestamp < e.2.buyTimestamp))).length

/-- Spec-side characterization of eviction (spec §4.2, claim C6), stated from
the spec's words for comparison with `cleanupOldPositions`: an entry survives
iff it is active, or at least 10 closed (non-active) entries are strictly
older than it — i.e. exactly the 10 oldest closed entries are removed and no
active entry is ever removed. -/
def evictionSpecSurvivors (m : List (String × Position)) : List (String × Position) :=
  m.filter (fun e => decide (e.2.status = PStatus.active) ||
    decide (10 ≤ olderClosedCount m e))

/-! ### SellConditionMonitor (src/unnamed/part_000, SellManager)

A watch entry is keyed by mint in `sellConditions : Map<string, SellCondition>`;
for the claims below the watch set is the list of watched mints plus the
position store.  External effects of `executeSell` are parameters:
`balanceFetch` is the result of `getAssociatedTokenAddress`/`getAccount`
(`Except.error` = an exception in the liquidation path, caught by the
`catch` block of `executeSell`; `Except.ok b` = an on-chain balance `b`).
The second component of the result counts invocations of the transaction
executor: the source's `executeSell` contains none — it logs a simulated
sell and calls `closePosition` with `'simulated_sell_signature'`. -/

/-- Combined monitor-side state: the watched mints and the position store. -/
structure SellState where
  conditions : List String
  positions : List (String × Position)
deriving DecidableEq, Repr

/-- `SellManager.removeSellCondition` (part_000 lines 68–71):
`Map.delete(mint)`. -/
def SellManager.removeSellCondition (conds : List String) (mint : String) :
    List String :=
  conds.filter (fun m => decide (m ≠ mint))

/-- `SellManager.executeSell` (part_000 lines 189–245).  The `try` block:
fetch the wallet balance (an exception lands in the `catch`, which only logs —
no state change); a zero balance removes the watch entry and returns; otherwise
the sell is *simulated*: `closePosition(mint, reason, 'simulated_sell_signature')`
and `removeSellCondition(mint)`.  No transaction-executor call occurs on any
path, so the executor-invocation count (second component) is always 0. -/
def SellManager.executeSell (st : SellState) (mint : String)
    (reason : TriggerReason) (balanceFetch : Except Unit Nat)
    (now : Nat) : SellState × Nat :=
  match balanceFetch with
  | Except.error _ => (st, 0)
  | Except.ok bal =>
    if bal = 0 then
      ({ st with conditions := SellManager.removeSellCondition st.conditions mint }, 0)
    else
      ({ conditions := SellManager.removeSellCondition st.conditions mint,
         positions := PositionManager.closePosition st.positions mint reason
           (some "simulated_sell_signature") now }, 0)

/-- `elapsedMinutes = (Date.now() - checkStartTime) / (1000 * 60)`. -/
def elapsedMinutes (checkStartTime now : Nat) : Rat :=
  ((now - checkStartTime : Nat) : Rat) / 60000

/-- `pnlPercent = ((currentValue - buyValue) / buyValue) * 100` with
`buyValue = buyPrice * buyAmount` and `currentValue = price * buyAmount`. -/
def pnlPercentOf (pos : Position) (currentPrice : Rat) : Rat :=
  (currentPrice * pos.buyAmount - pos.buyPrice * pos.buyAmount) /
    (pos.buyPrice * pos.buyAmount) * 100

/-- `SellManager.checkSellCondition` (part_000 lines 98–163), decision part:
(1) TTL first; (2) a failed price fetch skips the cycle (no store mutation,
no trigger); (3) otherwise `updatePosition` runs with the fresh price and
value regardless of the trigger outcome, then (4) take-profit, (5) stop-loss.
Returns the updated position store and the trigger decision. -/
def SellManager.checkSellCondition (positions : List (String × Position))
    (pos : Position) (checkStartTime now : Nat)
    (ttlMinutes takeProfit stopLoss : Rat)
    (price : Option Rat) : List (String × Position) × Option TriggerReason :=
  if ttlMinutes ≤ elapsedMinutes checkStartTime now then
    (positions, some TriggerReason.ttl)
  else
    match price with
    | none => (positions, none)
    | some currentPrice =>
      let currentValue := currentPrice * pos.buyAmount
      let positions' := PositionManager.updatePosition positions pos.mint
        currentPrice currentValue
      if takeProfit ≤ pnlPercentOf pos currentPrice then
        (positions', some TriggerReason.takeProfit)
      else if pnlPercentOf pos currentPrice ≤ -stopLoss then
        (positions', some TriggerReason.stopLoss)
      else (positions', none)

/-- One whole per-entry evaluation of the monitor loop: run
`checkSellCondition`; on a trigger, run `executeSell` (which is what removes
the watch entry); otherwise leave the watch set untouched. -/
def SellManager.checkSellStep (st : SellState) (pos : Position)
    (checkStartTime now : Nat) (ttlMinutes takeProfit stopLoss : Rat)
    (price : Option Rat) (balanceFetch : Except Unit Nat) : SellState × Nat :=
  let r := SellManager.checkSellCondition st.positions pos checkStartTime now
    ttlMinutes takeProfit stopLoss price
  match r.2 with
  | some reason =>
    SellManager.executeSell { conditions := st.conditions, positions := r.1 }
      pos.mint reason balanceFetch now
  | none => ({ conditions := st.conditions, positions := r.1 }, 0)

/-! ### OnChainFilter.checkPoolSize (src/unnamed/part_002, lines 165–191)

The source compares `poolSize.toExact() < minSize.toString()` and
`poolSize.toExact() > maxSize.toString()`: both operands are JavaScript
*strings*, so `<` and `>` are lexicographic comparisons of decimal strings
by character code, not numeric comparisons.  We embed integer-valued pool
sizes and bounds, rendered to decimal digit strings by `Nat.toDigits 10`
(most significant digit first, exactly like `toString`). -/

/-- JavaScript string `<` on two strings: lexicographic by character code,
with a proper prefix comparing smaller. -/
def jsStrLt : List Char → List Char → Bool
  | [], [] => false
  | [], _ :: _ => true
  | _ :: _, [] => false
  | a :: as, b :: bs => if a < b then true else if b < a then false else jsStrLt as bs

/-- `OnChainFilter.checkPoolSize` for integer-valued sizes: `true` means the
check passes.  A bound equal to 0 disables that bound; the comparisons are the
source's string comparisons of the decimal renderings. -/
def OnChainFilter.checkPoolSize (poolSize minSize maxSize : Nat) : Bool :=
  let ps := Nat.toDigits 10 poolSize
  if decide (0 < minSize) && jsStrLt ps (Nat.toDigits 10 minSize) then false
  else if decide (0 < maxSize) && jsStrLt (Nat.toDigits 10 maxSize) ps then false
  else true

/-! ### Single-flight acquisition (src/unnamed/part_003, Bot.buy)

With `oneTokenAtATime` enabled, `Bot.buy` runs (lines 163–173):
`if (mutex.isLocked() || sellExecutionCount > 0) return; await mutex.acquire();`
— the check and the acquisition are synchronous (there is no `await` between
them, and `async-mutex` marks the mutex locked synchronously upon `acquire()`),
so under the cooperative single-threaded event loop they form one atomic step.
The body (market fetch, filters, swap retries) runs inside `try { ... }`
with `finally { mutex.release() }`, so whichever way the body exits —
success, filter rejection, retry exhaustion or exception — the release runs;
we model the whole body plus `finally` as the `finish` step, which releases
the lock unconditionally when the gate had acquired it.

A concurrent execution of two `buy` attempts A and B is an interleaving of
A's `[gate, finish]` with B's `[gate, finish]`. -/

/-- The four atomic events of two concurrent `Bot.buy` attempts. -/
inductive BuyAct where
  | gateA
  | finishA
  | gateB
  | finishB
deriving DecidableEq, Repr

/-- Shared state: the mutex, plus (for each attempt) `none` before its gate
ran, `some true` if it proceeded past the gate into the swap path, and
`some false` if it was skipped. -/
structure BuyRaceState where
  locked : Bool
  procA : Option Bool
  procB : Option Bool
deriving DecidableEq, Repr

/-- The single-flight gate of `Bot.buy`: the attempt proceeds iff the mutex
is not locked and no liquidation (`sellExecutionCount`) is in flight; skipped
attempts return before the `try` block, hence before any transaction-executor
call, and are not queued. -/
def buyGate (locked : Bool) (sellExecutionCount : Nat) : Bool :=
  !(locked || decide (0 < sellExecutionCount))

/-- One atomic step of the two-attempt race: a gate step decides (and, when
proceeding, acquires the mutex in the same step); a finish step models the
body together with its `finally`, releasing the mutex iff this attempt had
acquired it — regardless of how the body exited. -/
def buyStep (sellExecutionCount : Nat) (s : BuyRaceState) (a : BuyAct) : BuyRaceState :=
  match a with
  | BuyAct.gateA =>
    match s.procA with
    | some _ => s
    | none =>
      let p := buyGate s.locked sellExecutionCount
      { s with procA := some p, locked := s.locked || p }
  | BuyAct.finishA => if s.procA = some true then { s with locked := false } else s
  | BuyAct.gateB =>
    match s.procB with
    | some _ => s
    | none =>
      let p := buyGate s.locked sellExecutionCount
      { s with procB := some p, locked := s.locked || p }
  | BuyAct.finishB => if s.procB = some true then { s with locked := false } else s

/-- Run a schedule of atomic events from the initial state (mutex free,
neither gate run yet). -/
def runBuySchedule (sellExecutionCount : Nat) (acts : List BuyAct) : BuyRaceState :=
  acts.foldl (buyStep sellExecutionCount)
    { locked := false, procA := none, procB := none }

/-- `Interleaving xs ys zs`: `zs` is an order-preserving merge of `xs` and
`ys` — the cooperative schedules of two concurrent tasks. -/
inductive Interleaving : List BuyAct → List BuyAct → List BuyAct → Prop where
  | nil : Interleaving [] [] []
  | left (a : BuyAct) (xs ys zs : List BuyAct) :
      Interleaving xs ys zs → Interleaving (a :: xs) ys (a :: zs)
  | right (b : BuyAct) (xs ys zs : List BuyAct) :
      Interleaving xs ys zs → Interleaving xs (b :: ys) (b :: zs)

/-- The two attempts overlap (are issued concurrently): each gate runs before
the other attempt has finished. -/
def overlaps (s : List BuyAct) : Prop :=
  s.indexOf BuyAct.gateB < s.indexOf BuyAct.finishA ∧
  s.indexOf BuyAct.gateA < s.indexOf BuyAct.finishB

instance (s : List BuyAct) : Decidable (overlaps s) :=
  inferInstanceAs (Decidable (And _ _))

/-! ### Concrete stores used by counterexamples and witnesses -/

/-- A one-entry monitor state: mint "m" watched, with an active position. -/
def oneWatchState : SellState :=
  { conditions := ["m"],
    positions := [("m", newPosition "m" "TKN" 1 1 "buySig" 0)] }

/-- A 50-entry store: mints "0".."49", acquisition timestamps 0..49, the 12
oldest sold and the rest active. -/
def fiftyStore : List (String × Position) :=
  (List.range 50).map (fun i =>
    (toString i,
      { mint := toString i, symbol := "S", buyPrice := 1, buyAmount := 1,
        buyTimestamp := i, buySignature := "sig",
        status := if i < 12 then PStatus.sold else PStatus.active }))

/-! ## Theorems -/

/-! ### C1 — FilterPipeline debounce -/

theorem executeLoop_mono (rc : Nat) :
    ∀ (l : List Bool) (c c' : Nat), c ≤ c' →
      executeLoop rc l c = true → executeLoop rc l c' = true := by
  intro l
  induction l with
  | nil => intro c c' _ h; simp [executeLoop] at h
  | cons r rest ih =>
    intro c c' hcc h
    cases r with
    | false => exact h
    | true =>
      by_cases h1 : rc ≤ c' + 1
      · simp [executeLoop, h1]
      · have h2 : ¬ rc ≤ c + 1 := by omega
        rw [executeLoop, if_neg h2] at h
        rw [executeLoop, if_neg h1]
        exact ih (c + 1) (c' + 1) (by omega) h

theorem executeLoop_of_prefix (rc : Nat) :
    ∀ (k : Nat) (l : List Bool) (c : Nat), c < rc → rc ≤ c + k →
      (∃ t, l = List.replicate k true ++ t) → executeLoop rc l c = true := by
  intro k
  induction k with
  | zero => intro l c h1 h2 _; omega
  | succ k ih =>
    rintro l c h1 h2 ⟨t, rfl⟩
    rw [List.replicate_succ, List.cons_append]
    by_cases hc : rc ≤ c + 1
    · simp [executeLoop, hc]
    · rw [executeLoop, if_neg hc]
      exact ih _ (c + 1) (by omega) (by omega) ⟨t, rfl⟩

theorem executeLoop_of_middle (rc : Nat) (hrc : 0 < rc) :
    ∀ (s t : List Bool),
      executeLoop rc (s ++ (List.replicate rc true ++ t)) 0 = true := by
  intro s
  induction s with
  | nil =>
    intro t
    exact executeLoop_of_prefix rc rc _ 0 hrc (by omega) ⟨t, rfl⟩
  | cons a s ih =>
    intro t
    cases a with
    | false => exact ih t
    | true =>
      by_cases hc : rc ≤ 0 + 1
      · simp [executeLoop, hc]
      · rw [List.cons_append, executeLoop, if_neg hc]
        exact executeLoop_mono rc _ 0 1 (by omega) (ih t)

theorem executeLoop_true_elim (rc : Nat) :
    ∀ (l : List Bool) (c : Nat), executeLoop rc l c = true →
      (∃ k t, rc ≤ c + k ∧ l = List.replicate k true ++ t) ∨
      (∃ s t, l = s ++ (List.replicate rc true ++ t)) := by
  intro l
  induction l with
  | nil => intro c h; simp [executeLoop] at h
  | cons r rest ih =>
    intro c h
    cases r with
    | true =>
      by_cases hc : rc ≤ c + 1
      · exact Or.inl ⟨1, rest, by omega, by simp⟩
      · rw [executeLoop, if_neg hc] at h
        rcases ih (c + 1) h with ⟨k, t, hk, rfl⟩ | ⟨s, t, rfl⟩
        · exact Or.inl ⟨k + 1, t, by omega, by rw [List.replicate_succ, List.cons_append]⟩
        · exact Or.inr ⟨true :: s, t, rfl⟩
    | false =>
      rw [executeLoop] at h
      rcases ih 0 h with ⟨k, t, hk, rfl⟩ | ⟨s, t, rfl⟩
      · refine Or.inr ⟨[false], List.replicate (k - rc) true ++ t, ?_⟩
        have hsplit : List.replicate k true =
            List.replicate rc true ++ List.replicate (k - rc) true := by
          rw [← List.replicate_add]; congr 1; omega
        simp only [hsplit, List.cons_append, List.nil_append, List.append_assoc]
      · exact Or.inr ⟨false :: s, t, rfl⟩

/-- C1: for every finite sequence of round outcomes, `PoolFilters.execute`
admits iff a contiguous run of `rc` consecutive all-pass rounds completes
within the first `maxAttempts = ceil(repeat_timeout / repeat_interval)`
rounds (any failed round resets the consecutive-pass counter); moreover, the
decision is reached as soon as such a run completes within the first
`k ≤ maxAttempts` rounds, independently of all later round outcomes. -/
theorem filterPipeline_debounce_correct (rc tm iv : Nat) (rounds : List Bool)
    (hrc : 0 < rc) :
    (PoolFilters.execute rc tm iv rounds = true ↔
      ∃ s t, rounds.take (maxAttempts tm iv) =
        s ++ (List.replicate rc true ++ t)) ∧
    (∀ (k : Nat) (extra : List Bool), k ≤ maxAttempts tm iv →
      (∃ s t, rounds.take k = s ++ (List.replicate rc true ++ t)) →
      PoolFilters.execute rc tm iv (rounds.take k ++ extra) = true) := by
  constructor
  · constructor
    · intro h
      rcases executeLoop_true_elim rc _ 0 h with ⟨k, t, hk, heq⟩ | ⟨s, t, heq⟩
      · refine ⟨[], List.replicate (k - rc) true ++ t, ?_⟩
        have hsplit : List.replicate k true =
            List.replicate rc true ++ List.replicate (k - rc) true := by
          rw [← List.replicate_add]; congr 1; omega
        simp only [heq, hsplit, List.nil_append, List.append_assoc]
      · exact ⟨s, t, heq⟩
    · rintro ⟨s, t, heq⟩
      unfold PoolFilters.execute
      rw [heq]
      exact executeLoop_of_middle rc hrc s t
  · rintro k extra hk ⟨s, t, heq⟩
    unfold PoolFilters.execute
    have h1 : (rounds.take k ++ extra).take (maxAttempts tm iv) =
        rounds.take k ++ extra.take (maxAttempts tm iv - (rounds.take k).length) := by
      rw [List.take_append_eq_append_take, List.take_take,
        Nat.min_eq_right hk]
    rw [h1, heq, List.append_assoc, List.append_assoc]
    exact executeLoop_of_middle rc hrc s _

/-- Witness for C1 at the spec's own example: `repeat_count = 3`,
`timeout = 30000`, `interval = 5000` (so `maxAttempts = 6`) and rounds
`[pass, pass, fail, pass, pass, pass]` admit on round 6. -/
theorem filterPipeline_debounce_correct_witness :
    0 < 3 ∧
    PoolFilters.execute 3 30000 5000 [true, true, false, true, true, true] = true :=
  ⟨by decide,
    (filterPipeline_debounce_correct 3 30000 5000
      [true, true, false, true, true, true] (by decide)).1.mpr
      ⟨[true, true, false], [], by decide⟩⟩

/-! ### C8 — pool-size check compares strings -/

/-- C8 (code bug): the pool-size check passes a pool of size 9 against a
configured minimum of 10 (the string of `9` is not lexicographically smaller
than the string of `10`), and passes a pool of size 100 against a configured
maximum of 20 (the string of `100` is not lexicographically larger than the
string of `20`), although numerically 9 < 10 and 20 < 100 — the claimed
interval semantics `min ≤ poolSize ≤ max` is violated because the source
compares decimal strings lexicographically instead of numbers. -/
theorem checkPoolSize_string_comparison_bug :
    OnChainFilter.checkPoolSize 9 10 0 = true ∧ 9 < 10 ∧
    OnChainFilter.checkPoolSize 100 1 20 = true ∧ 20 < 100 := by decide

/-! ### Store lemmas shared by several claims -/

theorem getPosition_mapSet_self (m : List (String × Position)) (k : String)
    (v : Position) :
    PositionManager.getPosition (mapSet m k v) k = some v := by
  induction m with
  | nil => simp [mapSet, PositionManager.getPosition]
  | cons e rest ih =>
    by_cases he : e.1 = k
    · simp [mapSet, he, PositionManager.getPosition]
    · simp [mapSet, he, PositionManager.getPosition, ih]

theorem mapSet_length_of_present (m : List (String × Position)) (k : String)
    (v q : Position) (h : PositionManager.getPosition m k = some q) :
    (mapSet m k v).length = m.length := by
  induction m with
  | nil => simp [PositionManager.getPosition] at h
  | cons e rest ih =>
    by_cases he : e.1 = k
    · simp [mapSet, he]
    · rw [PositionManager.getPosition, if_neg he] at h
      simp [mapSet, he, ih h]

theorem mapSet_filter_key_length (m : List (String × Position)) (k : String)
    (v : Position) (hkeys : m.Pairwise (fun a b => a.1 ≠ b.1)) :
    ((mapSet m k v).filter (fun e => decide (e.1 = k))).length = 1 := by
  induction m with
  | nil => simp [mapSet]
  | cons e rest ih =>
    rw [List.pairwise_cons] at hkeys
    by_cases he : e.1 = k
    · have hrest : rest.filter (fun e => decide (e.1 = k)) = [] := by
        apply List.filter_eq_nil_iff.mpr
        intro b hb
        have : e.1 ≠ b.1 := hkeys.1 b hb
        simp only [decide_eq_true_eq]
        intro hbk
        exact this (by rw [he, hbk])
      simp [mapSet, he, List.filter_cons, hrest]
    · simp [mapSet, he, List.filter_cons, ih hkeys.2]

theorem closePosition_absent (m : List (String × Position)) (mint : String)
    (reason : TriggerReason) (sig : Option String) (now : Nat)
    (h : PositionManager.getPosition m mint = none) :
    PositionManager.closePosition m mint reason sig now = m := by
  induction m with
  | nil => rfl
  | cons e rest ih =>
    by_cases he : e.1 = mint
    · rw [PositionManager.getPosition, if_pos he] at h
      exact absurd h (by simp)
    · rw [PositionManager.getPosition, if_neg he] at h
      have hrest := ih h
      simp only [PositionManager.closePosition, List.map_cons] at hrest ⊢
      rw [if_neg he, hrest]

theorem closePosition_present (m : List (String × Position)) (mint : String)
    (reason : TriggerReason) (sig : Option String) (now : Nat) (q : Position)
    (h : PositionManager.getPosition m mint = some q) :
    PositionManager.getPosition
      (PositionManager.closePosition m mint reason sig now) mint =
      some { q with
             status := PStatus.sold,
             sellReason := some reason,
             sellSignature := sig,
             sellTimestamp := some now } := by
  induction m with
  | nil => simp [PositionManager.getPosition] at h
  | cons e rest ih =>
    by_cases he : e.1 = mint
    · rw [PositionManager.getPosition, if_pos he] at h
      have hq : e.2 = q := Option.some.inj h
      simp [PositionManager.closePosition, PositionManager.getPosition, he, hq]
    · rw [PositionManager.getPosition, if_neg he] at h
      have hrest := ih h
      simp only [PositionManager.closePosition, List.map_cons] at hrest ⊢
      rw [if_neg he, PositionManager.getPosition, if_neg he]
      exact hrest

/-! ### C2 — duplicate open() is not a no-op: it overwrites -/

/-- C2 counterexample: opening mint "mintA" twice (first with symbol "FIRST",
then with symbol "SECOND") leaves exactly one position, but its fields are
those of the *second* call — `Map.set` in `addPosition` overwrites, so the
claimed "fields from the first call" is false. -/
theorem positionStore_duplicate_open_counterexample :
    PositionManager.getPosition
      (PositionManager.addPosition
        (PositionManager.addPosition [] "mintA" "FIRST" 1 2 "sig1" 100)
        "mintA" "SECOND" 3 4 "sig2" 200) "mintA" =
      some (newPosition "mintA" "SECOND" 3 4 "sig2" 200) ∧
    (PositionManager.addPosition
        (PositionManager.addPosition [] "mintA" "FIRST" 1 2 "sig1" 100)
        "mintA" "SECOND" 3 4 "sig2" 200).length = 1 ∧
    newPosition "mintA" "SECOND" 3 4 "sig2" 200 ≠
      newPosition "mintA" "FIRST" 1 2 "sig1" 100 := by decide

/-- C2 (amended): a second `open()` for a token id already present leaves
exactly one position for that token id, but its fields are those set by the
*second* call — `addPosition` overwrites via `Map.set` (the duplicate guard
lives upstream, in `Bot.buy`'s `hasPosition` check, not in the store). -/
theorem positionStore_duplicate_open_overwrites
    (m : List (String × Position)) (mint symbol : String)
    (price amt : Rat) (sig : String) (now : Nat) (q : Position)
    (hpresent : PositionManager.getPosition m mint = some q)
    (hkeys : m.Pairwise (fun a b => a.1 ≠ b.1))
    (hlen : m.length ≤ PositionManager.maxPositions) :
    PositionManager.addPosition m mint symbol price amt sig now =
      mapSet m mint (newPosition mint symbol price amt sig now) ∧
    PositionManager.getPosition
      (PositionManager.addPosition m mint symbol price amt sig now) mint =
      some (newPosition mint symbol price amt sig now) ∧
    ((PositionManager.addPosition m mint symbol price amt sig now).filter
      (fun e => decide (e.1 = mint))).length = 1 := by
  have hlen2 : (mapSet m mint (newPosition mint symbol price amt sig now)).length
      = m.length :=
    mapSet_length_of_present m mint _ q hpresent
  have hnoclean : PositionManager.addPosition m mint symbol price amt sig now =
      mapSet m mint (newPosition mint symbol price amt sig now) := by
    simp only [PositionManager.addPosition]
    rw [if_neg (by omega)]
  refine ⟨hnoclean, ?_, ?_⟩
  · rw [hnoclean]; exact getPosition_mapSet_self m mint _
  · rw [hnoclean]; exact mapSet_filter_key_length m mint _ hkeys

/-- Witness for C2's amended theorem on a concrete one-entry store. -/
theorem positionStore_duplicate_open_overwrites_witness :
    ((PositionManager.addPosition
        [("mintA", newPosition "mintA" "FIRST" 1 2 "sig1" 100)]
        "mintA" "SECOND" 3 4 "sig2" 200).filter
      (fun e => decide (e.1 = "mintA"))).length = 1 :=
  (positionStore_duplicate_open_overwrites
    [("mintA", newPosition "mintA" "FIRST" 1 2 "sig1" 100)]
    "mintA" "SECOND" 3 4 "sig2" 200
    (newPosition "mintA" "FIRST" 1 2 "sig1" 100)
    (by decide) (by decide) (by decide)).2.2

/-! ### C9 — close() guards only absence; re-close overwrites exit fields -/

/-- C9 counterexample: closing mint "m" a second time with a different reason,
proof and timestamp overwrites the exit fields stamped by the first close —
`closePosition` only guards against an absent mint, not an already-closed
position, so the claimed idempotence is false. -/
theorem closePosition_overwrite_counterexample :
    (PositionManager.getPosition
      (PositionManager.closePosition
        (PositionManager.closePosition
          [("m", newPosition "m" "S" 1 1 "b" 10)]
          "m" TriggerReason.takeProfit (some "sig1") 20)
        "m" TriggerReason.stopLoss (some "sig2") 30) "m").map Position.sellReason =
      some (some TriggerReason.stopLoss) ∧
    (PositionManager.getPosition
      (PositionManager.closePosition
        (PositionManager.closePosition
          [("m", newPosition "m" "S" 1 1 "b" 10)]
          "m" TriggerReason.takeProfit (some "sig1") 20)
        "m" TriggerReason.stopLoss (some "sig2") 30) "m").map Position.sellTimestamp =
      some (some 30) ∧
    ¬ (PositionManager.getPosition
      (PositionManager.closePosition
        (PositionManager.closePosition
          [("m", newPosition "m" "S" 1 1 "b" 10)]
          "m" TriggerReason.takeProfit (some "sig1") 20)
        "m" TriggerReason.stopLoss (some "sig2") 30) "m").map Position.sellReason =
      some (some TriggerReason.takeProfit) := by decide

/-- C9 (amended): `closePosition` is a no-op when no position exists for the
token id; but whenever a position exists — even one already closed — it sets
status to sold and overwrites exit reason, exit proof and exit timestamp with
the new call's values. -/
theorem closePosition_guard_behavior (m : List (String × Position))
    (mint : String) (reason : TriggerReason) (sig : Option String) (now : Nat) :
    (PositionManager.getPosition m mint = none →
      PositionManager.closePosition m mint reason sig now = m) ∧
    (∀ q : Position, PositionManager.getPosition m mint = some q →
      PositionManager.getPosition
        (PositionManager.closePosition m mint reason sig now) mint =
        some { q with
               status := PStatus.sold,
               sellReason := some reason,
               sellSignature := sig,
               sellTimestamp := some now }) :=
  ⟨fun h => closePosition_absent m mint reason sig now h,
   fun q h => closePosition_present m mint reason sig now q h⟩

/-- Witness for C9's amended theorem on a concrete one-entry store. -/
theorem closePosition_guard_behavior_witness :
    PositionManager.getPosition
      (PositionManager.closePosition [("m", newPosition "m" "S" 1 1 "b" 10)]
        "m" TriggerReason.ttl (some "s") 5) "m" =
      some { newPosition "m" "S" 1 1 "b" 10 with
             status := PStatus.sold,
             sellReason := some TriggerReason.ttl,
             sellSignature := some "s",
             sellTimestamp := some 5 } :=
  (closePosition_guard_behavior [("m", newPosition "m" "S" 1 1 "b" 10)]
    "m" TriggerReason.ttl (some "s") 5).2
    (newPosition "m" "S" 1 1 "b" 10) (by decide)

/-! ### C3 — the liquidation path never calls the transaction executor -/

/-- C3 counterexample: on a triggered sell with a nonzero balance, the
liquidation path makes zero transaction-executor attempts, yet the position
is recorded as sold with the literal signature 'simulated_sell_signature' —
refuting the claim that the swap is attempted (with bounded retries and a
confirmed result) before the exit is recorded. -/
theorem sellPath_no_executor_counterexample :
    (SellManager.executeSell oneWatchState "m" TriggerReason.takeProfit
      (Except.ok 5) 777).2 = 0 ∧
    (PositionManager.getPosition
      (SellManager.executeSell oneWatchState "m" TriggerReason.takeProfit
        (Except.ok 5) 777).1.positions "m").map Position.status =
      some PStatus.sold ∧
    (PositionManager.getPosition
      (SellManager.executeSell oneWatchState "m" TriggerReason.takeProfit
        (Except.ok 5) 777).1.positions "m").map Position.sellSignature =
      some (some "simulated_sell_signature") := by decide

/-- C3 (amended): on a trigger with a nonzero balance the liquidation path
performs no transaction-executor call at all (executor-attempt count 0): it
simulates the sell, unconditionally records the exit in the store via
`closePosition` with the simulated signature, and removes the watch entry;
there is no retry loop and no retry-exhaustion outcome. -/
theorem executeSell_simulated_liquidation (st : SellState) (mint : String)
    (reason : TriggerReason) (bal now : Nat) (hbal : bal ≠ 0) :
    SellManager.executeSell st mint reason (Except.ok bal) now =
      ({ conditions := SellManager.removeSellCondition st.conditions mint,
         positions := PositionManager.closePosition st.positions mint reason
           (some "simulated_sell_signature") now }, 0) := by
  simp [SellManager.executeSell, hbal]

/-- Witness for C3's amended theorem on a concrete watched position. -/
theorem executeSell_simulated_liquidation_witness :
    (5 ≠ 0) ∧
    SellManager.executeSell oneWatchState "m" TriggerReason.takeProfit
        (Except.ok 5) 777 =
      ({ conditions := SellManager.removeSellCondition oneWatchState.conditions "m",
         positions := PositionManager.closePosition oneWatchState.positions "m"
           TriggerReason.takeProfit (some "simulated_sell_signature") 777 }, 0) :=
  ⟨by decide,
    executeSell_simulated_liquidation oneWatchState "m" TriggerReason.takeProfit
      5 777 (by decide)⟩

/-! ### C4 — watch removal is conditional: exceptions keep the entry -/

/-- C4 counterexample: when the liquidation path raises an exception (here:
the balance fetch fails), the `catch` block of `executeSell` only logs —
the watch entry for "m" is still present afterwards, refuting the claim that
the watch entry is removed unconditionally, including on any exception. -/
theorem watchRemoval_exception_counterexample :
    (SellManager.executeSell { conditions := ["m"], positions := [] } "m"
      TriggerReason.ttl (Except.error ()) 0).1.conditions = ["m"] := by decide

/-- C4 (amended): the watch entry is removed on both non-exceptional paths of
the liquidation attempt (zero balance, and simulated sell for a nonzero
balance), but an exception in the liquidation path leaves the whole state —
including the watch entry — unchanged, so the entry can be evaluated and
re-triggered on a later monitor cycle. -/
theorem executeSell_watch_removal_paths (st : SellState) (mint : String)
    (reason : TriggerReason) (now : Nat) :
    (∀ bal : Nat,
      (SellManager.executeSell st mint reason (Except.ok bal) now).1.conditions =
        SellManager.removeSellCondition st.conditions mint) ∧
    (∀ e : Unit,
      SellManager.executeSell st mint reason (Except.error e) now = (st, 0)) := by
  constructor
  · intro bal
    by_cases h : bal = 0 <;> simp [SellManager.executeSell, h]
  · intro e; rfl

/-! ### C10 — zero-balance liquidation: unwatch, no close, no executor -/

/-- C10: when the wallet balance for the token reads zero at a sell trigger,
`executeSell` removes the watch entry and returns with zero executor calls:
the position store is left entirely unchanged — no `closePosition`, so the
position (all fields untouched) remains in status active while no longer
monitored. -/
theorem executeSell_zero_balance_frame (st : SellState) (mint : String)
    (reason : TriggerReason) (now : Nat) :
    SellManager.executeSell st mint reason (Except.ok 0) now =
      ({ st with conditions := SellManager.removeSellCondition st.conditions mint },
        0) := by
  rfl

/-! ### C7 — per-entry evaluation order of the monitor -/

/-- C7: one per-entry evaluation follows the claimed order, first match wins:
(1) with TTL elapsed the trigger is `ttl` and nothing else is consulted (the
store is untouched by the decision step, even if take-profit would also hold);
(2) otherwise an unavailable price skips the cycle — no trigger, no store
mutation, and the whole `checkSellStep` leaves the monitor state (watch set
included) unchanged; (3) otherwise `updatePosition` is called with the fresh
price and value regardless of the trigger outcome, and then (4) take-profit
(`pnlPercent ≥ tp`) fires, else (5) stop-loss (`pnlPercent ≤ -sl`).
Hypothesis `0 < buyPrice*buyAmount` restricts to the domain where rational
division agrees with the source's float division. -/
theorem sellMonitor_evaluation_order (positions : List (String × Position))
    (pos : Position) (cs now : Nat) (ttl tp sl : Rat) (price : Option Rat)
    (_hbv : 0 < pos.buyPrice * pos.buyAmount) :
    (ttl ≤ elapsedMinutes cs now →
      SellManager.checkSellCondition positions pos cs now ttl tp sl price =
        (positions, some TriggerReason.ttl)) ∧
    (elapsedMinutes cs now < ttl → price = none →
      SellManager.checkSellCondition positions pos cs now ttl tp sl price =
        (positions, none) ∧
      ∀ (conds : List String) (bf : Except Unit Nat),
        SellManager.checkSellStep { conditions := conds, positions := positions }
          pos cs now ttl tp sl price bf =
          ({ conditions := conds, positions := positions }, 0)) ∧
    (∀ cp : Rat, elapsedMinutes cs now < ttl → price = some cp →
      SellManager.checkSellCondition positions pos cs now ttl tp sl price =
        (PositionManager.updatePosition positions pos.mint cp (cp * pos.buyAmount),
         if tp ≤ pnlPercentOf pos cp then some TriggerReason.takeProfit
         else if pnlPercentOf pos cp ≤ -sl then some TriggerReason.stopLoss
         else none)) := by
  refine ⟨?_, ?_, ?_⟩
  · intro h
    simp [SellManager.checkSellCondition, h]
  · intro h hp
    subst hp
    have hn : ¬ ttl ≤ elapsedMinutes cs now := not_le.mpr h
    refine ⟨by simp [SellManager.checkSellCondition, hn], ?_⟩
    intro conds bf
    simp [SellManager.checkSellStep, SellManager.checkSellCondition, hn]
  · intro cp h hp
    subst hp
    have hn : ¬ ttl ≤ elapsedMinutes cs now := not_le.mpr h
    by_cases h1 : tp ≤ pnlPercentOf pos cp
    · simp [SellManager.checkSellCondition, hn, h1]
    · by_cases h2 : pnlPercentOf pos cp ≤ -sl <;>
        simp [SellManager.checkSellCondition, hn, h1, h2]

/-- Witness for C7 on a concrete position (buy price 1, amount 2, price read
2, take-profit 50%): pnlPercent = 100 and the take-profit branch fires after
`updatePosition`. -/
theorem sellMonitor_evaluation_order_witness :
    SellManager.checkSellCondition
        [("m", newPosition "m" "S" 1 2 "b" 0)]
        (newPosition "m" "S" 1 2 "b" 0) 0 0 30 50 30 (some 2) =
      (PositionManager.updatePosition [("m", newPosition "m" "S" 1 2 "b" 0)]
        (newPosition "m" "S" 1 2 "b" 0).mint 2 (2 * (newPosition "m" "S" 1 2 "b" 0).buyAmount),
       if (50 : Rat) ≤ pnlPercentOf (newPosition "m" "S" 1 2 "b" 0) 2 then
         some TriggerReason.takeProfit
       else if pnlPercentOf (newPosition "m" "S" 1 2 "b" 0) 2 ≤ -(30 : Rat) then
         some TriggerReason.stopLoss
       else none) :=
  (sellMonitor_evaluation_order [("m", newPosition "m" "S" 1 2 "b" 0)]
    (newPosition "m" "S" 1 2 "b" 0) 0 0 30 50 30 (some 2)
    (by norm_num [newPosition])).2.2 2 (by norm_num [elapsedMinutes]) rfl

/-! ### C5 — single-flight exclusion of concurrent acquisitions -/

/-- C5: for every cooperative interleaving of two concurrently issued
acquisition attempts (single-flight enabled, no liquidation in flight),
exactly one attempt proceeds past the gate into the swap path and the other
is skipped (it returns before the `try` block, so without any
transaction-executor call, and is not queued); the mutex is free again after
both attempts finished — the gate-acquired lock is released on every exit
path of the body, which the `finish` step models by releasing
unconditionally.  Additionally, whenever the in-flight liquidation count is
positive, the gate skips the acquisition regardless of the lock. -/
theorem singleFlight_exclusion (s : List BuyAct)
    (h : Interleaving [BuyAct.gateA, BuyAct.finishA]
      [BuyAct.gateB, BuyAct.finishB] s)
    (hov : overlaps s) :
    (((runBuySchedule 0 s).procA = some true ∧
      (runBuySchedule 0 s).procB = some false) ∨
     ((runBuySchedule 0 s).procA = some false ∧
      (runBuySchedule 0 s).procB = some true)) ∧
    (runBuySchedule 0 s).locked = false ∧
    (∀ (locked : Bool) (sc : Nat), 0 < sc → buyGate locked sc = false) := by
  have hsc : ∀ (locked : Bool) (sc : Nat), 0 < sc → buyGate locked sc = false := by
    intro locked sc hpos
    have hd : decide (0 < sc) = true := decide_eq_true hpos
    simp [buyGate, hd]
  cases h with
  | left a xs ys zs h1 =>
    cases h1 with
    | left a2 xs2 ys2 zs2 h2 =>
      cases h2 with
      | right b3 xs3 ys3 zs3 h3 =>
        cases h3 with
        | right b4 xs4 ys4 zs4 h4 =>
          cases h4
          exact absurd hov (by decide)
    | right b2 xs2 ys2 zs2 h2 =>
      cases h2 with
      | left a3 xs3 ys3 zs3 h3 =>
        cases h3 with
        | right b4 xs4 ys4 zs4 h4 =>
          cases h4
          exact ⟨by decide, by decide, hsc⟩
      | right b3 xs3 ys3 zs3 h3 =>
        cases h3 with
        | left a4 xs4 ys4 zs4 h4 =>
          cases h4
          exact ⟨by decide, by decide, hsc⟩
  | right b xs ys zs h1 =>
    cases h1 with
    | left a2 xs2 ys2 zs2 h2 =>
      cases h2 with
      | left a3 xs3 ys3 zs3 h3 =>
        cases h3 with
        | right b4 xs4 ys4 zs4 h4 =>
          cases h4
          exact ⟨by decide, by decide, hsc⟩
      | right b3 xs3 ys3 zs3 h3 =>
        cases h3 with
        | left a4 xs4 ys4 zs4 h4 =>
          cases h4
          exact ⟨by decide, by decide, hsc⟩
    | right b2 xs2 ys2 zs2 h2 =>
      cases h2 with
      | left a3 xs3 ys3 zs3 h3 =>
        cases h3 with
        | left a4 xs4 ys4 zs4 h4 =>
          cases h4
          exact absurd hov (by decide)

/-- Witness for C5 on the schedule A-gate, B-gate, A-finish, B-finish. -/
theorem singleFlight_exclusion_witness :
    (((runBuySchedule 0 [BuyAct.gateA, BuyAct.gateB, BuyAct.finishA,
        BuyAct.finishB]).procA = some true ∧
      (runBuySchedule 0 [BuyAct.gateA, BuyAct.gateB, BuyAct.finishA,
        BuyAct.finishB]).procB = some false) ∨
     ((runBuySchedule 0 [BuyAct.gateA, BuyAct.gateB, BuyAct.finishA,
        BuyAct.finishB]).procA = some false ∧
      (runBuySchedule 0 [BuyAct.gateA, BuyAct.gateB, BuyAct.finishA,
        BuyAct.finishB]).procB = some true)) ∧
    (runBuySchedule 0 [BuyAct.gateA, BuyAct.gateB, BuyAct.finishA,
      BuyAct.finishB]).locked = false ∧
    (∀ (locked : Bool) (sc : Nat), 0 < sc → buyGate locked sc = false) :=
  singleFlight_exclusion
    [BuyAct.gateA, BuyAct.gateB, BuyAct.finishA, BuyAct.finishB]
    (Interleaving.left _ _ _ _ (Interleaving.right _ _ _ _
      (Interleaving.left _ _ _ _ (Interleaving.right _ _ _ _ Interleaving.nil))))
    (by decide)

/-! ### C6 — eviction removes exactly the 10 oldest closed positions -/

theorem insertByTs_perm (x : String × Position) (l : List (String × Position)) :
    (insertByTs x l).Perm (x :: l) := by
  induction l with
  | nil => exact List.Perm.refl _
  | cons y ys ih =>
    rw [insertByTs]
    split
    · exact (List.Perm.cons y ih).trans (List.Perm.swap x y ys)
    · exact List.Perm.refl _

theorem sortByTimestamp_perm (l : List (String × Position)) :
    (sortByTimestamp l).Perm l := by
  induction l with
  | nil => exact List.Perm.refl _
  | cons x xs ih =>
    exact (insertByTs_perm x (sortByTimestamp xs)).trans (List.Perm.cons x ih)

theorem insertByTs_pairwise_le (x : String × Position)
    (l : List (String × Position))
    (h : l.Pairwise (fun a b => a.2.buyTimestamp ≤ b.2.buyTimestamp)) :
    (insertByTs x l).Pairwise
      (fun a b => a.2.buyTimestamp ≤ b.2.buyTimestamp) := by
  induction l with
  | nil => simp [insertByTs]
  | cons y ys ih =>
    rw [insertByTs]
    split
    · rename_i hy
      have h' := List.pairwise_cons.mp h
      rw [List.pairwise_cons]
      refine ⟨?_, ih h'.2⟩
      intro z hz
      have hz' : z ∈ x :: ys := (insertByTs_perm x ys).mem_iff.mp hz
      rcases List.mem_cons.mp hz' with rfl | hz2
      · exact le_of_lt hy
      · exact h'.1 z hz2
    · rename_i hy
      rw [List.pairwise_cons]
      refine ⟨?_, h⟩
      intro z hz
      rcases List.mem_cons.mp hz with rfl | hz2
      · exact le_of_not_lt hy
      · exact le_trans (le_of_not_lt hy) ((List.pairwise_cons.mp h).1 z hz2)

theorem sortByTimestamp_pairwise_le (l : List (String × Position)) :
    (sortByTimestamp l).Pairwise
      (fun a b => a.2.buyTimestamp ≤ b.2.buyTimestamp) := by
  induction l with
  | nil => simp [sortByTimestamp]
  | cons x xs ih => exact insertByTs_pairwise_le x _ ih

theorem length_filter_lt_of_mem {α : Type} (p : α → Bool) (l : List α) (a : α)
    (ha : a ∈ l) (hpa : p a = false) : (l.filter p).length < l.length := by
  induction l with
  | nil => cases ha
  | cons x xs ih =>
    rcases List.mem_cons.mp ha with rfl | hmem
    · simp only [List.filter_cons, hpa, Bool.false_eq_true, if_false, List.length_cons]
      exact Nat.lt_succ_of_le (List.length_filter_le p xs)
    · by_cases hx : p x = true
      · simp only [List.filter_cons, hx, if_true, List.length_cons]
        exact Nat.succ_lt_succ (ih hmem)
      · have hx' : p x = false := by revert hx; cases p x <;> simp
        simp only [List.filter_cons, hx', Bool.false_eq_true, if_false, List.length_cons]
        exact Nat.lt_succ_of_lt (ih hmem)

theorem key_eq_of_pairwise (m : List (String × Position)) :
    m.Pairwise (fun a b => a.1 ≠ b.1) →
    ∀ r e : String × Position, r ∈ m → e ∈ m → r.1 = e.1 → r = e := by
  induction m with
  | nil => intro _ r e hr _ _; cases hr
  | cons x xs ih =>
    intro hm r e hr he hkey
    rw [List.pairwise_cons] at hm
    rcases List.mem_cons.mp hr with rfl | hr2
    · rcases List.mem_cons.mp he with rfl | he2
      · rfl
      · exact absurd hkey (hm.1 e he2)
    · rcases List.mem_cons.mp he with rfl | he2
      · exact absurd hkey.symm (hm.1 r hr2)
      · exact ih hm.2 r e hr2 he2 hkey

theorem sorted_count_lt_of_mem_take (F : List (String × Position)) (n : Nat)
    (hle : F.Pairwise (fun a b => a.2.buyTimestamp ≤ b.2.buyTimestamp))
    (e : String × Position) (he : e ∈ F.take n) :
    (F.filter (fun x => decide (x.2.buyTimestamp < e.2.buyTimestamp))).length < n := by
  have hsplit : F = F.take n ++ F.drop n := (List.take_append_drop n F).symm
  have hcross : ∀ b ∈ F.drop n, e.2.buyTimestamp ≤ b.2.buyTimestamp := by
    have hp := hsplit ▸ hle
    intro b hb
    exact (List.pairwise_append.mp hp).2.2 e he b hb
  have hdrop : (F.drop n).filter
      (fun x => decide (x.2.buyTimestamp < e.2.buyTimestamp)) = [] := by
    apply List.filter_eq_nil_iff.mpr
    intro b hb
    simp only [decide_eq_true_eq]
    exact not_lt.mpr (hcross b hb)
  calc (F.filter (fun x => decide (x.2.buyTimestamp < e.2.buyTimestamp))).length
      = ((F.take n).filter (fun x => decide (x.2.buyTimestamp < e.2.buyTimestamp)) ++
         (F.drop n).filter (fun x => decide (x.2.buyTimestamp < e.2.buyTimestamp))).length := by
        conv_lhs => rw [hsplit, List.filter_append]
    _ = ((F.take n).filter (fun x => decide (x.2.buyTimestamp < e.2.buyTimestamp))).length := by
        rw [hdrop, List.append_nil]
    _ < (F.take n).length :=
        length_filter_lt_of_mem _ _ e he (by simp)
    _ ≤ n := List.length_take_le n F

theorem sorted_count_ge_of_mem_drop (F : List (String × Position)) (n : Nat)
    (hle : F.Pairwise (fun a b => a.2.buyTimestamp ≤ b.2.buyTimestamp))
    (hne : F.Pairwise (fun a b => a.2.buyTimestamp ≠ b.2.buyTimestamp))
    (e : String × Position) (he : e ∈ F.drop n) :
    n ≤ (F.filter (fun x => decide (x.2.buyTimestamp < e.2.buyTimestamp))).length := by
  have hsplit : F = F.take n ++ F.drop n := (List.take_append_drop n F).symm
  have hFlen : n < F.length := by
    have h0 : 0 < (F.drop n).length := List.length_pos_of_mem he
    rw [List.length_drop] at h0
    omega
  have hlen : (F.take n).length = n := by
    rw [List.length_take]
    omega
  have hup : ∀ a ∈ F.take n, a.2.buyTimestamp < e.2.buyTimestamp := by
    intro a ha
    have hple := (List.pairwise_append.mp (hsplit ▸ hle)).2.2 a ha e he
    have hpne := (List.pairwise_append.mp (hsplit ▸ hne)).2.2 a ha e he
    exact lt_of_le_of_ne hple hpne
  have htake : (F.take n).filter
      (fun x => decide (x.2.buyTimestamp < e.2.buyTimestamp)) = F.take n := by
    apply List.filter_eq_self.mpr
    intro a ha
    exact decide_eq_true (hup a ha)
  calc n = (F.take n).length := hlen.symm
    _ = ((F.take n).filter (fun x => decide (x.2.buyTimestamp < e.2.buyTimestamp))).length := by
        rw [htake]
    _ ≤ ((F.take n).filter (fun x => decide (x.2.buyTimestamp < e.2.buyTimestamp)) ++
         (F.drop n).filter (fun x => decide (x.2.buyTimestamp < e.2.buyTimestamp))).length := by
        rw [List.length_append]; exact Nat.le_add_right _ _
    _ = (F.filter (fun x => decide (x.2.buyTimestamp < e.2.buyTimestamp))).length := by
        rw [← List.filter_append, ← hsplit]

theorem olderClosedCount_eq (m : List (String × Position)) (e : String × Position) :
    olderClosedCount m e =
      (((sortByTimestamp m).filter (fun x => decide (x.2.status ≠ PStatus.active))).filter
        (fun x => decide (x.2.buyTimestamp < e.2.buyTimestamp))).length := by
  unfold olderClosedCount
  have h1 := ((sortByTimestamp_perm m).filter
    (fun x => decide (x.2.status ≠ PStatus.active) &&
      decide (x.2.buyTimestamp < e.2.buyTimestamp))).length_eq
  rw [← h1, List.filter_filter]
  congr 1
  apply List.filter_congr
  intro x _
  exact Bool.and_comm _ _

theorem cleanupOldPositions_eq_spec (m : List (String × Position))
    (hkeys : m.Pairwise (fun a b => a.1 ≠ b.1))
    (hts : m.Pairwise (fun a b => a.2.buyTimestamp ≠ b.2.buyTimestamp)) :
    PositionManager.cleanupOldPositions m = evictionSpecSurvivors m := by
  simp only [PositionManager.cleanupOldPositions, evictionSpecSurvivors]
  apply List.filter_congr
  intro e he
  have hSperm : (sortByTimestamp m).Perm m := sortByTimestamp_perm m
  have hSle := sortByTimestamp_pairwise_le m
  have hSne : (sortByTimestamp m).Pairwise
      (fun a b => a.2.buyTimestamp ≠ b.2.buyTimestamp) :=
    (List.Perm.pairwise_iff (by intro _ _ h; exact Ne.symm h) hSperm).mpr hts
  set F := (sortByTimestamp m).filter
    (fun x => decide (x.2.status ≠ PStatus.active)) with hF
  have hFle : F.Pairwise (fun a b => a.2.buyTimestamp ≤ b.2.buyTimestamp) :=
    hSle.sublist (List.filter_sublist _)
  have hFne : F.Pairwise (fun a b => a.2.buyTimestamp ≠ b.2.buyTimestamp) :=
    hSne.sublist (List.filter_sublist _)
  have hcount : olderClosedCount m e =
      (F.filter (fun x => decide (x.2.buyTimestamp < e.2.buyTimestamp))).length :=
    olderClosedCount_eq m e
  by_cases hact : e.2.status = PStatus.active
  · have hany : (F.take 10).any (fun r => decide (r.1 = e.1)) = false := by
      apply List.any_eq_false.mpr
      intro r hrT
      simp only [decide_eq_true_eq]
      intro hkey
      have hrF : r ∈ F := (List.take_sublist 10 F).subset hrT
      have hrS : r ∈ sortByTimestamp m := (List.filter_sublist _).subset hrF
      have hrm : r ∈ m := hSperm.mem_iff.mp hrS
      have hre : r = e := key_eq_of_pairwise m hkeys r e hrm he hkey
      have hna := (List.mem_filter.mp hrF).2
      rw [hre] at hna
      simp [hact] at hna
    simp [hany, hact]
  · have heS : e ∈ sortByTimestamp m := hSperm.mem_iff.mpr he
    have heF : e ∈ F := List.mem_filter.mpr ⟨heS, by simp [hact]⟩
    have hsplitF : F = F.take 10 ++ F.drop 10 := (List.take_append_drop 10 F).symm
    have hmem : e ∈ F.take 10 ∨ e ∈ F.drop 10 := by
      rw [hsplitF] at heF
      exact List.mem_append.mp heF
    rcases hmem with hT | hD
    · have hlt : (F.filter (fun x =>
          decide (x.2.buyTimestamp < e.2.buyTimestamp))).length < 10 :=
        sorted_count_lt_of_mem_take F 10 hFle e hT
      have hany : (F.take 10).any (fun r => decide (r.1 = e.1)) = true :=
        List.any_eq_true.mpr ⟨e, hT, by simp⟩
      have hnc : ¬ (10 ≤ olderClosedCount m e) := by
        rw [hcount]; omega
      simp [hany, hact, hnc]
    · have hge : 10 ≤ (F.filter (fun x =>
          decide (x.2.buyTimestamp < e.2.buyTimestamp))).length :=
        sorted_count_ge_of_mem_drop F 10 hFle hFne e hD
      have hexcl : e ∉ F.take 10 := by
        intro hT
        have := (List.pairwise_append.mp (hsplitF ▸ hFne)).2.2 e hT e hD
        exact this rfl
      have hany : (F.take 10).any (fun r => decide (r.1 = e.1)) = false := by
        apply List.any_eq_false.mpr
        intro r hrT
        simp only [decide_eq_true_eq]
        intro hkey
        have hrF : r ∈ F := (List.take_sublist 10 F).subset hrT
        have hrm : r ∈ m :=
          hSperm.mem_iff.mp ((List.filter_sublist _).subset hrF)
        have hre : r = e := key_eq_of_pairwise m hkeys r e hrm he hkey
        exact hexcl (hre ▸ hrT)
      have h10 : 10 ≤ olderClosedCount m e := by
        rw [hcount]; exact hge
      simp [hany, hact, h10]

/-- C6: with the capacity ceiling `maxPositions = 50`, an `addPosition` whose
resulting map exceeds the ceiling removes exactly the closed (non-active)
entries with fewer than 10 strictly older closed entries — i.e. the 10 oldest
closed positions by acquisition timestamp (all of them when fewer than 10
exist) — and never removes an active position regardless of its age; an
`addPosition` that does not exceed the ceiling removes nothing.  Timestamps
are assumed pairwise distinct ("the 10 oldest" is otherwise ill-defined), and
mints pairwise distinct (the `Map` invariant). -/
theorem positionStore_eviction_policy (m : List (String × Position))
    (mint symbol : String) (price amt : Rat) (sig : String) (now : Nat)
    (hkeys : (mapSet m mint (newPosition mint symbol price amt sig now)).Pairwise
      (fun a b => a.1 ≠ b.1))
    (hts : (mapSet m mint (newPosition mint symbol price amt sig now)).Pairwise
      (fun a b => a.2.buyTimestamp ≠ b.2.buyTimestamp)) :
    PositionManager.addPosition m mint symbol price amt sig now =
      (if PositionManager.maxPositions <
          (mapSet m mint (newPosition mint symbol price amt sig now)).length then
        evictionSpecSurvivors (mapSet m mint (newPosition mint symbol price amt sig now))
      else mapSet m mint (newPosition mint symbol price amt sig now)) := by
  simp only [PositionManager.addPosition]
  by_cases hc : PositionManager.maxPositions <
      (mapSet m mint (newPosition mint symbol price amt sig now)).length
  · rw [if_pos hc, if_pos hc]
    exact cleanupOldPositions_eq_spec _ hkeys hts
  · rw [if_neg hc, if_neg hc]

/-- Witness for C6: a 51st position is opened over `fiftyStore` (50 positions,
12 of them closed); the hypotheses (distinct mints, distinct timestamps) are
discharged by computation. -/
theorem positionStore_eviction_policy_witness :
    PositionManager.addPosition fiftyStore "newmint" "NEW" 1 1 "sig" 1000 =
      (if PositionManager.maxPositions <
          (mapSet fiftyStore "newmint"
            (newPosition "newmint" "NEW" 1 1 "sig" 1000)).length then
        evictionSpecSurvivors (mapSet fiftyStore "newmint"
          (newPosition "newmint" "NEW" 1 1 "sig" 1000))
      else mapSet fiftyStore "newmint"
        (newPosition "newmint" "NEW" 1 1 "sig" 1000)) :=
  positionStore_eviction_policy fiftyStore "newmint" "NEW" 1 1 "sig" 1000
    (by decide) (by decide)
